import Mathlib

/-!
Shallow embedding of the polls application (src/mysite/polls/models.py and
the view contracts exercised by src/mysite/polls/tests.py).

Timestamps are modelled as integers counting seconds, so
`datetime.timedelta(days=1)` is the constant 86400 and
`datetime.timedelta(days=1, seconds=1)` is 86401.
-/

namespace Polls

/-- `datetime.timedelta(days=1)` in seconds (`one_day` in models.py). -/
def one_day : Int := 86400

/-- The comparison performed by `Question.was_published_in_day` in models.py:
`return now - one_day <= self.pub_date <= now`, as a function of the two
timestamps `now` (from `timezone.now()`) and `pub_date`. -/
def was_published_in_day (now pub_date : Int) : Bool :=
  decide (now - one_day ≤ pub_date) && decide (pub_date ≤ now)

/-- A `Question` record from models.py: `question_text` is
`CharField(max_length=200)`, `pub_date` is `DateTimeField("date published")`;
`id` is the primary key the framework adds to every model. -/
structure Question where
  id : Nat
  question_text : String
  pub_date : Int
  deriving Repr, DecidableEq

/-- A `Choice` record from models.py: `question` stores the id of the
referenced Question (`ForeignKey(Question, on_delete=models.CASCADE)`),
`choice_text` is `CharField(max_length=200)` and `votes` is
`IntegerField(default=0)`, hence a possibly negative integer. -/
structure Choice where
  id : Nat
  question : Nat
  choice_text : String
  votes : Int
  deriving Repr, DecidableEq

/-- The method `was_published_in_day` as it acts on a `Question`: it returns
the boolean and the record as the call leaves it; the Python body only reads
`self.pub_date`, so the record comes back unchanged. -/
def Question.method_was_published_in_day (now : Int) (q : Question) :
    Bool × Question :=
  (was_published_in_day now q.pub_date, q)

/-- The declared bound of `Question.question_text`:
`CharField(max_length=200)`. -/
def Question.valid (q : Question) : Prop :=
  q.question_text.length ≤ 200

/-- The declared bound of `Choice.choice_text`: `CharField(max_length=200)`. -/
def Choice.valid (c : Choice) : Prop :=
  c.choice_text.length ≤ 200

instance (q : Question) : Decidable q.valid := by
  unfold Question.valid; infer_instance

instance (c : Choice) : Decidable c.valid := by
  unfold Choice.valid; infer_instance

/-- Creating a `Choice` without supplying a `votes` value: the field
declaration `votes = models.IntegerField(default=0)` fills in 0. -/
def Choice.create (id question : Nat) (text : String) : Choice :=
  ⟨id, question, text, 0⟩

/-- Ordering by `pub_date` descending, most recent first. -/
def pub_date_ge (a b : Question) : Prop :=
  b.pub_date ≤ a.pub_date

instance : DecidableRel pub_date_ge := fun a b => by
  unfold pub_date_ge; infer_instance

instance : IsTotal Question pub_date_ge :=
  ⟨fun a b => le_total b.pub_date a.pub_date⟩

instance : IsTrans Question pub_date_ge :=
  ⟨fun _ _ _ hab hbc => le_trans hbc hab⟩

/-- Modelled from the spec: the index view (views.py is not among the
sources) lists all Questions whose `pub_date` is at or before `now`, ordered
by `pub_date` descending, most recent first. -/
def latest_question_list (now : Int) (qs : List Question) : List Question :=
  List.insertionSort pub_date_ge (qs.filter (fun q => decide (q.pub_date ≤ now)))

/-- Modelled from the spec: the detail view (views.py is not among the
sources) returns the Question with the given identifier when it exists and
its `pub_date` is at or before `now`; `none` signals the not-found condition
that the external layer maps to HTTP 404. -/
def detail_lookup (now : Int) (qs : List Question) (qid : Nat) : Option Question :=
  match qs.find? (fun q => q.id == qid) with
  | some q => if q.pub_date ≤ now then some q else none
  | none => none

/-- The persisted state: all stored Question and Choice records. -/
structure DB where
  questions : List Question
  choices : List Choice
  deriving Repr, DecidableEq

/-- Referential integrity: every stored Choice references an existing
Question. -/
def DB.ref_intact (db : DB) : Prop :=
  ∀ c ∈ db.choices, ∃ q ∈ db.questions, q.id = c.question

/-- Every stored record respects the `CharField(max_length=200)` bounds. -/
def DB.text_bounded (db : DB) : Prop :=
  (∀ q ∈ db.questions, q.valid) ∧ (∀ c ∈ db.choices, c.valid)

/-- Modelled from the spec: deleting a Question removes the Question and,
through `on_delete=models.CASCADE` on `Choice.question` in models.py, every
Choice that references it; the cascade itself is executed by the external
persistence layer. -/
def delete_question (qid : Nat) (db : DB) : DB :=
  ⟨db.questions.filter (fun q => q.id != qid),
   db.choices.filter (fun c => c.question != qid)⟩

/-- Modelled from the spec: the persistence collaborator stores a Question
only when its text respects the declared `CharField(max_length=200)` bound. -/
def insert_question (q : Question) (db : DB) : Option DB :=
  if q.question_text.length ≤ 200 then some ⟨q :: db.questions, db.choices⟩
  else none

/-- Modelled from the spec: the persistence collaborator stores a Choice
only when its text respects the declared `CharField(max_length=200)` bound. -/
def insert_choice (c : Choice) (db : DB) : Option DB :=
  if c.choice_text.length ≤ 200 then some ⟨db.questions, c :: db.choices⟩
  else none

end Polls

namespace Polls

/-- C1: `was_published_in_day` is true iff `now - 24h ≤ pub_date ≤ now`;
in particular `pub_date = now` gives true and any `pub_date` strictly after
`now` gives false. -/
theorem was_published_in_day_iff (now t : Int) :
    (was_published_in_day now t = true ↔ now - one_day ≤ t ∧ t ≤ now)
    ∧ was_published_in_day now now = true
    ∧ (now < t → was_published_in_day now t = false) := by
  refine ⟨?_, ?_, fun h => ?_⟩ <;>
    simp only [was_published_in_day, one_day, Bool.and_eq_true, decide_eq_true_eq,
      Bool.and_eq_false_iff, decide_eq_false_iff_not] <;> omega

/-- Witness for C1 at `now = 100`, `t = 101`. -/
theorem was_published_in_day_iff_witness :
    was_published_in_day 100 101 = false :=
  (was_published_in_day_iff 100 101).2.2 (by decide)

/-- C4: the lower boundary is inclusive: a `pub_date` exactly one day before
`now` satisfies the predicate, one of one day and one second before does not. -/
theorem was_published_in_day_boundary (now : Int) :
    was_published_in_day now (now - one_day) = true
    ∧ was_published_in_day now (now - (one_day + 1)) = false := by
  constructor <;>
    simp only [was_published_in_day, one_day, Bool.and_eq_true, decide_eq_true_eq,
      Bool.and_eq_false_iff, decide_eq_false_iff_not] <;> omega

/-- C9: the predicate is invariant under shifting both timestamps by the same
duration, and its value depends only on the difference `now - t`. -/
theorem was_published_in_day_translation (now t d : Int) :
    was_published_in_day (now + d) (t + d) = was_published_in_day now t
    ∧ (∀ now2 t2 : Int, now - t = now2 - t2 →
        was_published_in_day now t = was_published_in_day now2 t2) := by
  constructor
  · simp only [was_published_in_day, one_day]
    congr 1 <;> (rw [decide_eq_decide]; omega)
  · intro now2 t2 h
    simp only [was_published_in_day, one_day]
    congr 1 <;> (rw [decide_eq_decide]; omega)

/-- Witness for C9 at `now = 10`, `t = 5`, shifted to `now = 20`, `t = 15`. -/
theorem was_published_in_day_translation_witness :
    was_published_in_day 10 5 = was_published_in_day 20 15 :=
  (was_published_in_day_translation 10 5 0).2 20 15 (by decide)

/-- Membership in the listing is membership in the stored set together with
the `pub_date ≤ now` filter. -/
theorem mem_latest_question_list (now : Int) (qs : List Question) (q : Question) :
    q ∈ latest_question_list now qs ↔ q ∈ qs ∧ q.pub_date ≤ now := by
  unfold latest_question_list
  rw [(List.perm_insertionSort pub_date_ge _).mem_iff, List.mem_filter]
  simp

/-- C8: the method is effect-free: it hands back the record unchanged, its
boolean is exactly the pure two-timestamp function, and the boolean depends
on the record only through `pub_date`. -/
theorem method_was_published_in_day_pure (now : Int) (q : Question) :
    (Question.method_was_published_in_day now q).2 = q
    ∧ (Question.method_was_published_in_day now q).1
        = was_published_in_day now q.pub_date
    ∧ (∀ q2 : Question, q2.pub_date = q.pub_date →
        (Question.method_was_published_in_day now q2).1
          = (Question.method_was_published_in_day now q).1) := by
  refine ⟨rfl, rfl, fun q2 h => ?_⟩
  simp [Question.method_was_published_in_day, h]

/-- Witness for C8 on two concrete records sharing a `pub_date`. -/
theorem method_was_published_in_day_pure_witness :
    (Question.method_was_published_in_day 7 ⟨2, "b", 3⟩).1
      = (Question.method_was_published_in_day 7 ⟨1, "a", 3⟩).1 :=
  (method_was_published_in_day_pure 7 ⟨1, "a", 3⟩).2.2 ⟨2, "b", 3⟩ rfl

/-- C2: the listing is a permutation of the stored Questions whose
`pub_date` is at or before `now`, it is sorted by `pub_date` descending,
Questions with a future `pub_date` never appear, and the listing over no
stored Questions is empty. -/
theorem latest_question_list_spec (now : Int) (qs : List Question) :
    List.Perm (latest_question_list now qs)
        (qs.filter (fun q => decide (q.pub_date ≤ now)))
    ∧ List.Sorted pub_date_ge (latest_question_list now qs)
    ∧ (∀ q, q ∈ latest_question_list now qs ↔ q ∈ qs ∧ q.pub_date ≤ now)
    ∧ (∀ q : Question, now < q.pub_date → q ∉ latest_question_list now qs)
    ∧ latest_question_list now [] = [] := by
  refine ⟨List.perm_insertionSort pub_date_ge _,
    List.sorted_insertionSort pub_date_ge _,
    fun q => mem_latest_question_list now qs q,
    fun q hfut hmem => ?_, rfl⟩
  have h := (mem_latest_question_list now qs q).mp hmem
  omega

/-- Witness for C2: a Question dated strictly after `now` is not listed. -/
theorem latest_question_list_spec_witness :
    (⟨1, "f", 9⟩ : Question) ∉ latest_question_list 5 [⟨1, "f", 9⟩] :=
  (latest_question_list_spec 5 [⟨1, "f", 9⟩]).2.2.2.1 ⟨1, "f", 9⟩ (by decide)

/-- Two stored Questions with the same identifier are the same record when
identifiers are pairwise distinct. -/
theorem eq_of_mem_of_id_eq {qs : List Question}
    (huniq : qs.Pairwise (fun a b => a.id ≠ b.id)) {a b : Question}
    (ha : a ∈ qs) (hb : b ∈ qs) (h : a.id = b.id) : a = b := by
  by_contra hne
  have hsymm : Symmetric (fun a b : Question => a.id ≠ b.id) :=
    fun _ _ hxy h2 => hxy h2.symm
  exact List.Pairwise.forall hsymm huniq ha hb hne h

/-- Characterisation of a successful detail lookup. -/
theorem detail_lookup_eq_some_iff (now : Int) (qs : List Question) (qid : Nat)
    (huniq : qs.Pairwise (fun a b => a.id ≠ b.id)) (q : Question) :
    detail_lookup now qs qid = some q
      ↔ q ∈ qs ∧ q.id = qid ∧ q.pub_date ≤ now := by
  unfold detail_lookup
  cases hfind : qs.find? (fun r => r.id == qid) with
  | none =>
    constructor
    · intro h
      cases h
    · rintro ⟨hmem, hid, -⟩
      have hno := List.find?_eq_none.mp hfind q hmem
      simp [hid] at hno
  | some q0 =>
    have hq0id : q0.id = qid := by
      have := List.find?_some hfind
      simpa using this
    have hq0mem : q0 ∈ qs := List.mem_of_find?_eq_some hfind
    by_cases hle : q0.pub_date ≤ now
    · simp only [if_pos hle, Option.some.injEq]
      constructor
      · rintro rfl
        exact ⟨hq0mem, hq0id, hle⟩
      · rintro ⟨hmem, hid, -⟩
        exact (eq_of_mem_of_id_eq huniq hmem hq0mem (hid.trans hq0id.symm)).symm
    · simp only [if_neg hle]
      constructor
      · intro h
        cases h
      · rintro ⟨hmem, hid, hle2⟩
        have heq : q = q0 := eq_of_mem_of_id_eq huniq hmem hq0mem (hid.trans hq0id.symm)
        rw [heq] at hle2
        exact absurd hle2 hle

/-- C3: with pairwise-distinct identifiers, the detail lookup returns a
Question exactly when it is stored with the requested identifier and its
`pub_date` is at or before `now`; otherwise it signals the not-found
condition, the only error condition the core defines. -/
theorem detail_lookup_spec (now : Int) (qs : List Question) (qid : Nat)
    (huniq : qs.Pairwise (fun a b => a.id ≠ b.id)) :
    (∀ q, detail_lookup now qs qid = some q
        ↔ q ∈ qs ∧ q.id = qid ∧ q.pub_date ≤ now)
    ∧ (detail_lookup now qs qid = none
        ↔ ¬ ∃ q, q ∈ qs ∧ q.id = qid ∧ q.pub_date ≤ now) := by
  refine ⟨fun q => detail_lookup_eq_some_iff now qs qid huniq q, ?_⟩
  cases hd : detail_lookup now qs qid with
  | none =>
    simp only [true_iff]
    rintro ⟨q, hq⟩
    have := (detail_lookup_eq_some_iff now qs qid huniq q).mpr hq
    rw [hd] at this
    cases this
  | some q0 =>
    have hq0 := (detail_lookup_eq_some_iff now qs qid huniq q0).mp hd
    constructor
    · intro h
      cases h
    · intro h
      exact absurd ⟨q0, hq0⟩ h

/-- Witness for C3: a stored past Question is returned by the lookup. -/
theorem detail_lookup_spec_witness :
    detail_lookup 5 [⟨1, "a", 0⟩] 1 = some ⟨1, "a", 0⟩ :=
  ((detail_lookup_spec 5 [⟨1, "a", 0⟩] 1 (by simp)).1 ⟨1, "a", 0⟩).mpr
    ⟨by simp, rfl, by decide⟩

/-- C5: deleting a Question leaves no Choice referencing it and no Question
carrying its identifier, and preserves referential integrity, so every
remaining Choice still references exactly one existing Question. -/
theorem delete_question_cascade (qid : Nat) (db : DB) (h : db.ref_intact) :
    (∀ c ∈ (delete_question qid db).choices, c.question ≠ qid)
    ∧ (∀ q ∈ (delete_question qid db).questions, q.id ≠ qid)
    ∧ (delete_question qid db).ref_intact := by
  refine ⟨fun c hc => ?_, fun q hq => ?_, fun c hc => ?_⟩
  · have := (List.mem_filter.mp hc).2
    simpa using this
  · have := (List.mem_filter.mp hq).2
    simpa using this
  · have hc2 := List.mem_filter.mp hc
    obtain ⟨q, hqmem, hqid⟩ := h c hc2.1
    have hne : c.question ≠ qid := by simpa using hc2.2
    refine ⟨q, List.mem_filter.mpr ⟨hqmem, ?_⟩, hqid⟩
    simpa [hqid] using hne

/-- Witness for C5 on a store with one Question and one Choice. -/
theorem delete_question_cascade_witness :
    (delete_question 1 ⟨[⟨1, "q", 0⟩], [⟨1, 1, "c", 0⟩]⟩).ref_intact :=
  (delete_question_cascade 1 ⟨[⟨1, "q", 0⟩], [⟨1, 1, "c", 0⟩]⟩
    (fun c hc => by
      simp only [List.mem_singleton] at hc
      exact ⟨⟨1, "q", 0⟩, by simp, by rw [hc]⟩)).2.2

/-- C6 counterexample: a Choice with `votes = -1` meets every declared
constraint (its text is within bounds) and is accepted by the store, so
nothing in the code keeps `votes` non-negative. -/
theorem choice_votes_negative_accepted :
    (Choice.mk 1 1 "opt" (-1)).valid
    ∧ (Choice.mk 1 1 "opt" (-1)).votes < 0
    ∧ insert_choice (Choice.mk 1 1 "opt" (-1)) ⟨[⟨1, "q", 0⟩], []⟩
        = some ⟨[⟨1, "q", 0⟩], [Choice.mk 1 1 "opt" (-1)]⟩ := by
  refine ⟨by decide, by decide, ?_⟩
  unfold insert_choice
  rw [if_pos (by decide)]

/-- C6 amended: a Choice created without a supplied `votes` value has
`votes = 0`, which is non-negative; the field itself is a plain (possibly
negative) integer. -/
theorem choice_create_votes_zero (id question : Nat) (text : String) :
    (Choice.create id question text).votes = 0
    ∧ 0 ≤ (Choice.create id question text).votes := by
  simp [Choice.create]

/-- C7: the `CharField(max_length=200)` bound is an invariant of the store:
a record is only accepted with text of at most 200 characters, and every
store operation preserves the bound on all stored records. -/
theorem stored_text_bounded (db : DB) (hdb : db.text_bounded) :
    (∀ q db2, insert_question q db = some db2 →
        q.question_text.length ≤ 200 ∧ db2.text_bounded)
    ∧ (∀ c db2, insert_choice c db = some db2 →
        c.choice_text.length ≤ 200 ∧ db2.text_bounded)
    ∧ (∀ qid, (delete_question qid db).text_bounded) := by
  obtain ⟨hq, hc⟩ := hdb
  refine ⟨fun r db2 h => ?_, fun r db2 h => ?_, fun qid => ⟨?_, ?_⟩⟩
  · unfold insert_question at h
    by_cases hlen : r.question_text.length ≤ 200
    · rw [if_pos hlen] at h
      injection h with h
      subst h
      refine ⟨hlen, fun a ha => ?_, hc⟩
      rcases List.mem_cons.mp ha with rfl | ha2
      · exact hlen
      · exact hq a ha2
    · rw [if_neg hlen] at h
      cases h
  · unfold insert_choice at h
    by_cases hlen : r.choice_text.length ≤ 200
    · rw [if_pos hlen] at h
      injection h with h
      subst h
      refine ⟨hlen, hq, fun a ha => ?_⟩
      rcases List.mem_cons.mp ha with rfl | ha2
      · exact hlen
      · exact hc a ha2
    · rw [if_neg hlen] at h
      cases h
  · intro a ha
    exact hq a (List.mem_filter.mp ha).1
  · intro a ha
    exact hc a (List.mem_filter.mp ha).1

/-- Witness for C7: inserting a short-texted Question into the empty store
succeeds and the resulting store is bounded. -/
theorem stored_text_bounded_witness :
    (⟨1, "a", 0⟩ : Question).question_text.length ≤ 200
    ∧ (⟨[⟨1, "a", 0⟩], []⟩ : DB).text_bounded :=
  (stored_text_bounded ⟨[], []⟩
      (by constructor <;> intro a ha <;> cases ha)).1
    ⟨1, "a", 0⟩ ⟨[⟨1, "a", 0⟩], []⟩
    (by unfold insert_question; rw [if_pos (by decide)])

/-- C10: a Question satisfying the publication-window predicate has
`pub_date ≤ now`, hence it appears in the listing whenever stored and the
detail lookup returns it rather than signalling not-found. -/
theorem was_published_in_day_implies_visible (now : Int) (q : Question)
    (qs : List Question) (hp : was_published_in_day now q.pub_date = true) :
    q.pub_date ≤ now
    ∧ (q ∈ qs → q ∈ latest_question_list now qs)
    ∧ (q ∈ qs → qs.Pairwise (fun a b => a.id ≠ b.id) →
        detail_lookup now qs q.id = some q) := by
  have hle : q.pub_date ≤ now := by
    unfold was_published_in_day at hp
    simp only [Bool.and_eq_true, decide_eq_true_eq] at hp
    exact hp.2
  exact ⟨hle, fun hm => (mem_latest_question_list now qs q).mpr ⟨hm, hle⟩,
    fun hm huniq =>
      (detail_lookup_eq_some_iff now qs q.id huniq q).mpr ⟨hm, rfl, hle⟩⟩

/-- Witness for C10: a Question published at `now` is listed and found. -/
theorem was_published_in_day_implies_visible_witness :
    detail_lookup 5 [⟨3, "w", 5⟩] 3 = some ⟨3, "w", 5⟩ :=
  (was_published_in_day_implies_visible 5 ⟨3, "w", 5⟩ [⟨3, "w", 5⟩]
    (by decide)).2.2 (by simp) (by simp)

end Polls
